import Mathlib

/-!
Kvstore: a transactional object-store facade over the bolt engine

A shallow embedding of `kvstore.go`.  The Go file is a thin wrapper; every
operation of `Trx` and `Manager` is translated statement by statement.  The
collaborators that are not part of the repository are modelled next to it:

* the bolt engine (`Tx.Bucket`, `Tx.CreateBucketIfNotExists`,
  `Bucket.NextSequence`, `Bucket.Put`, `Bucket.Get`, `Bucket.Delete`,
  `DB.Update`, `DB.View`),
* `encoding/binary` (`PutUint64`, `Uint64`),
* `encoding/json`, taken as a parameter (`Codec`),
* `errors.Wrap`, a constructor of the error type.

Machine integers are naturals; `uint64` arithmetic is reduced modulo `2 ^ 64`.
A Go call can end in three ways: it returns normally, it returns an error, or
it panics (a nil pointer dereference).  All three are results of the model.
-/

namespace Kvstore

/-! ## Bytes and the identifier codec -/

/-- A Go `[]byte`: each element is a natural below 256. -/
abbrev Bytes := List Nat

/-- Number of values of a Go `uint64`. -/
def uint64Size : Nat := 2 ^ 64

/-- The call `binary.BigEndian.PutUint64(b, v)` on a fresh 8-byte slice: `b[0] = byte(v >> 56)`,
`b[1] = byte(v >> 48)`, ..., `b[7] = byte(v)`.  The conversion `byte(x)` keeps the low
8 bits, and `v >> k` is `v / 2 ^ k`. -/
def PutUint64 (v : Nat) : Bytes :=
  [v / 2 ^ 56 % 256, v / 2 ^ 48 % 256, v / 2 ^ 40 % 256, v / 2 ^ 32 % 256,
   v / 2 ^ 24 % 256, v / 2 ^ 16 % 256, v / 2 ^ 8 % 256, v % 256]

/-- The function `itob(v uint64) []byte`: allocate 8 bytes and store `v` big-endian. -/
def itob (v : Nat) : Bytes :=
  PutUint64 v

/-- The function `idtob(v ID) []byte`: allocate 8 bytes and store `uint64(v)` big-endian. -/
def idtob (v : Nat) : Bytes :=
  PutUint64 v

/-- The number a byte string denotes when read big-endian (most significant byte first),
as `binary.BigEndian.Uint64` does for 8 bytes. -/
def bigEndian (b : Bytes) : Nat :=
  b.foldl (fun acc x => acc * 256 + x) 0

/-- Byte-lexicographic "strictly precedes", the order bolt keeps keys in
(`bytes.Compare(a, b) < 0`). -/
def bytesLess : Bytes → Bytes → Bool
  | [], [] => false
  | [], _ :: _ => true
  | _ :: _, [] => false
  | x :: xs, y :: ys => if x < y then true else if y < x then false else bytesLess xs ys

/-! ## Errors and results -/

/-- Go `error` values that can flow through the facade.  The first five are bolt's
sentinel errors, `collaborator` stands for an error made outside the engine and the
facade (by `encoding/json` or by the caller's callback), and `Wrap cause msg` is
`errors.Wrap(cause, msg)`. -/
inductive Err where
  | ErrTxNotWritable
  | ErrBucketNameRequired
  | ErrKeyRequired
  | ErrKeyTooLarge
  | ErrValueTooLarge
  | collaborator (msg : String)
  | Wrap (cause : Err) (msg : String)
  deriving DecidableEq, Repr

/-- How a Go call on a state `σ` ends: `ok a s` returns `a` with a nil error, `err e s`
returns the non-nil error `e`; both carry the state the call leaves behind.  `panic` is a
run-time panic, which unwinds the goroutine. -/
inductive Res (σ α : Type) where
  | ok (a : α) (s : σ)
  | err (e : Err) (s : σ)
  | panic
  deriving DecidableEq, Repr

/-- The serialization collaborator (`json.Marshal` and `json.Unmarshal`) for objects of
type `Obj`.  `Unmarshal bytes receiver` gives the contents of the receiver after decoding
`bytes` into it. -/
structure Codec (Obj : Type) where
  Marshal : Obj → Except Err Bytes
  Unmarshal : Bytes → Obj → Except Err Obj

/-! ## The bolt engine -/

/-- Modelled from the spec: a bucket of the external storage engine, "a named,
independently keyed namespace of ID → serialized-object entries" with a "per-bucket
monotonic 64-bit sequence" counter.  `sequence` is bolt's `bucket.sequence`, a `uint64`;
`entries` are the key/value pairs of the bucket. -/
structure Bucket where
  sequence : Nat
  entries : List (Bytes × Bytes)
  deriving DecidableEq, Repr

/-- The committed contents of a store file: its top-level buckets by name. -/
abbrev DB := List (String × Bucket)

/-- Modelled from the spec: an engine transaction (`bolt.Tx`).  `writable` tells a
read-write transaction (begun by `DB.Update`) from a read-only one (begun by `DB.View`);
`buckets` is the transaction's view of the store. -/
structure Tx where
  writable : Bool
  buckets : DB
  deriving DecidableEq, Repr

/-- bolt's `MaxKeySize`. -/
def MaxKeySize : Nat := 32768

/-- bolt's `MaxValueSize`, `(1 << 31) - 2`. -/
def MaxValueSize : Nat := 2 ^ 31 - 2

/-- First bucket stored under `name`, if any. -/
def lookupBucket (name : String) : DB → Option Bucket
  | [] => none
  | (n, b) :: rest => if n = name then some b else lookupBucket name rest

/-- Replace the first bucket stored under `name` by `f` of it. -/
def updateBucket (name : String) (f : Bucket → Bucket) : DB → DB
  | [] => []
  | (n, b) :: rest =>
    if n = name then (n, f b) :: rest else (n, b) :: updateBucket name f rest

/-- Value of the first entry stored under `key`, if any. -/
def lookupEntry (key : Bytes) : List (Bytes × Bytes) → Option Bytes
  | [] => none
  | (k, v) :: rest => if k = key then some v else lookupEntry key rest

/-- Write `value` under `key`: overwrite the entry when there is one, add one otherwise. -/
def putEntry (key value : Bytes) : List (Bytes × Bytes) → List (Bytes × Bytes)
  | [] => [(key, value)]
  | (k, v) :: rest =>
    if k = key then (k, value) :: rest else (k, v) :: putEntry key value rest

/-- Remove every entry stored under `key`. -/
def deleteEntry (key : Bytes) : List (Bytes × Bytes) → List (Bytes × Bytes)
  | [] => []
  | (k, v) :: rest =>
    if k = key then deleteEntry key rest else (k, v) :: deleteEntry key rest

/-- Modelled from the spec: `tx.Bucket(name)` of the engine.  It returns the bucket, or nil
when the bucket does not exist.  A `*bolt.Bucket` is a handle into its transaction, so
the handle is the bucket's name; `none` is the nil pointer. -/
def Tx.Bucket (t : Tx) (name : String) : Option String :=
  match lookupBucket name t.buckets with
  | some _ => some name
  | none => none

/-- Modelled from the spec: `tx.CreateBucketIfNotExists(name)` of the engine, "creates the
named bucket if absent; idempotent".  bolt refuses it in a read-only transaction
(`ErrTxNotWritable`) and for an empty name (`ErrBucketNameRequired`); a new bucket is
empty and its sequence is 0. -/
def Tx.CreateBucketIfNotExists (t : Tx) (name : String) : Res Tx String :=
  if t.writable = false then .err .ErrTxNotWritable t
  else if name.length = 0 then .err .ErrBucketNameRequired t
  else
    match lookupBucket name t.buckets with
    | some _ => .ok name t
    | none => .ok name ⟨t.writable, t.buckets ++ [(name, ⟨0, []⟩)]⟩

/-- Modelled from the spec: `b.NextSequence()` of the engine, the "per-bucket monotonic
64-bit sequence generation".  bolt reads `b.tx` first, so a nil `b` panics; a read-only
transaction gets `ErrTxNotWritable`; otherwise `b.bucket.sequence++` on a `uint64`
(which wraps at `2 ^ 64`) and the new value is returned. -/
def Bucket.NextSequence (t : Tx) (b : Option String) : Res Tx Nat :=
  match b with
  | none => .panic
  | some name =>
    if t.writable = false then .err .ErrTxNotWritable t
    else
      match lookupBucket name t.buckets with
      | none => .panic
      | some bk =>
        let id := (bk.sequence + 1) % uint64Size
        .ok id ⟨t.writable, updateBucket name (fun x => ⟨id, x.entries⟩) t.buckets⟩

/-- Modelled from the spec: `b.Put(key, value)` of the engine, "byte-keyed put within a
bucket".  A nil `b` panics; bolt then checks, in this order, that the transaction is
writable, that the key is not empty, not longer than `MaxKeySize`, and that the value is
not longer than `MaxValueSize`; then it writes or overwrites the entry. -/
def Bucket.Put (t : Tx) (b : Option String) (key value : Bytes) : Res Tx Unit :=
  match b with
  | none => .panic
  | some name =>
    if t.writable = false then .err .ErrTxNotWritable t
    else if key.length = 0 then .err .ErrKeyRequired t
    else if key.length > MaxKeySize then .err .ErrKeyTooLarge t
    else if value.length > MaxValueSize then .err .ErrValueTooLarge t
    else
      .ok () ⟨t.writable,
        updateBucket name (fun x => ⟨x.sequence, putEntry key value x.entries⟩) t.buckets⟩

/-- Modelled from the spec: `b.Get(key)` of the engine, "byte-keyed get within a bucket".
A nil `b` panics; the result is the stored value, or nil (`none`) when the key has no
entry.  It never fails and works in read-only transactions. -/
def Bucket.Get (t : Tx) (b : Option String) (key : Bytes) : Res Tx (Option Bytes) :=
  match b with
  | none => .panic
  | some name =>
    match lookupBucket name t.buckets with
    | none => .panic
    | some bk => .ok (lookupEntry key bk.entries) t

/-- Modelled from the spec: `b.Delete(key)` of the engine, "byte-keyed delete within a
bucket".  A nil `b` panics; a read-only transaction gets `ErrTxNotWritable`; otherwise the
key is removed, and "if the key does not exist then nothing is done and a nil error is
returned". -/
def Bucket.Delete (t : Tx) (b : Option String) (key : Bytes) : Res Tx Unit :=
  match b with
  | none => .panic
  | some name =>
    if t.writable = false then .err .ErrTxNotWritable t
    else
      .ok () ⟨t.writable,
        updateBucket name (fun x => ⟨x.sequence, deleteEntry key x.entries⟩) t.buckets⟩

/-! ## The facade: `Trx` -/

/-- The method `Trx.Create(bucket, idReceiver)`: look the bucket up, take the next sequence number,
build the object from it, marshal it and put it under `itob(id)`.  The second `if err !=
nil` of the source can never be taken and is left out. -/
def Trx.Create {Obj : Type} (c : Codec Obj) (t : Tx) (bucket : String)
    (idReceiver : Nat → Obj) : Res Tx Obj :=
  let b := Tx.Bucket t bucket
  match Bucket.NextSequence t b with
  | .panic => .panic
  | .err e t1 => .err (.Wrap e "failed to generate object ID") t1
  | .ok id t1 =>
    let object := idReceiver id
    match c.Marshal object with
    | .error e => .err (.Wrap e "failed to marshal object to JSON") t1
    | .ok bytes =>
      match Bucket.Put t1 b (itob id) bytes with
      | .panic => .panic
      | .err e t2 => .err (.Wrap e "failed to put object to bucket") t2
      | .ok _ t2 => .ok object t2

/-- The method `Trx.Put(bucket, id, object)`: look the bucket up, marshal the object, then put it
under `idtob(id)`. -/
def Trx.Put {Obj : Type} (c : Codec Obj) (t : Tx) (bucket : String) (id : Nat)
    (object : Obj) : Res Tx Unit :=
  let b := Tx.Bucket t bucket
  match c.Marshal object with
  | .error e => .err (.Wrap e "failed to marshal object to JSON") t
  | .ok bytes =>
    match Bucket.Put t b (idtob id) bytes with
    | .panic => .panic
    | .err e t1 => .err (.Wrap e "failed to put object to bucket") t1
    | .ok _ t1 => .ok () t1

/-- The method `Trx.Fetch(bucket, id, receiver)`: look the bucket up and get the bytes under
`idtob(id)`; when there are none return nil without touching the receiver, otherwise
return what `json.Unmarshal` returns.  The value of the result is the receiver after the
call. -/
def Trx.Fetch {Obj : Type} (c : Codec Obj) (t : Tx) (bucket : String) (id : Nat)
    (receiver : Obj) : Res Tx Obj :=
  let b := Tx.Bucket t bucket
  match Bucket.Get t b (idtob id) with
  | .panic => .panic
  | .err e t1 => .err e t1
  | .ok none t1 => .ok receiver t1
  | .ok (some bytes) t1 =>
    match c.Unmarshal bytes receiver with
    | .error e => .err e t1
    | .ok object => .ok object t1

/-- The method `Trx.Delete(bucket, id)`: look the bucket up and return what `b.Delete(idtob(id))`
returns. -/
def Trx.Delete (t : Tx) (bucket : String) (id : Nat) : Res Tx Unit :=
  let b := Tx.Bucket t bucket
  Bucket.Delete t b (idtob id)

/-- The method `Trx.InitializeBucket(bucket)`: return the error of `tx.CreateBucketIfNotExists`. -/
def Trx.InitializeBucket (t : Tx) (bucket : String) : Res Tx Unit :=
  match Tx.CreateBucketIfNotExists t bucket with
  | .panic => .panic
  | .err e t1 => .err e t1
  | .ok _ t1 => .ok () t1

/-! ## The facade: `Manager` -/

/-- The `Manager`: its `db` field is nil (`none`) until `Open`, then the open store. -/
structure Manager where
  db : Option DB
  deriving DecidableEq, Repr

/-- Modelled from the spec: `db.Update(fn)` of the engine, which "begins a read-write
transaction, invokes `fn`"; "if `fn` returns success, commits", "if `fn` returns failure,
the transaction is rolled back and that failure is propagated unchanged".  A panic of `fn`
propagates after the deferred rollback.  The commit itself is taken to succeed (no I/O
failure). -/
def DB.Update (db : DB) (fn : Tx → Res Tx Unit) : Res DB Unit :=
  match fn ⟨true, db⟩ with
  | .panic => .panic
  | .err e _ => .err e db
  | .ok _ t => .ok () t.buckets

/-- Modelled from the spec: `db.View(fn)` of the engine, which "begins a read-only
transaction over a consistent snapshot, invokes `fn`, discards the transaction afterward
regardless of outcome". -/
def DB.View (db : DB) (fn : Tx → Res Tx Unit) : Res DB Unit :=
  match fn ⟨false, db⟩ with
  | .panic => .panic
  | .err e _ => .err e db
  | .ok _ _ => .ok () db

/-- The method `Manager.Update(updater)`: `m.db.Update` with the updater run on a `Trx` over the
engine transaction.  On a manager that was never opened `m.db` is nil and the call
panics. -/
def Manager.Update (m : Manager) (updater : Tx → Res Tx Unit) : Res Manager Unit :=
  match m.db with
  | none => .panic
  | some db =>
    match DB.Update db (fun tx => updater tx) with
    | .panic => .panic
    | .err e db1 => .err e ⟨some db1⟩
    | .ok _ db1 => .ok () ⟨some db1⟩

/-- The method `Manager.View(viewer)`: `m.db.View` with the viewer run on a `Trx` over the engine
transaction. -/
def Manager.View (m : Manager) (viewer : Tx → Res Tx Unit) : Res Manager Unit :=
  match m.db with
  | none => .panic
  | some db =>
    match DB.View db (fun tx => viewer tx) with
    | .panic => .panic
    | .err e db1 => .err e ⟨some db1⟩
    | .ok _ db1 => .ok () ⟨some db1⟩

/-! ## Observations used by the statements -/

/-- The entry a transaction sees under `key` in the bucket `name`. -/
def Tx.entry (t : Tx) (name : String) (key : Bytes) : Option Bytes :=
  match lookupBucket name t.buckets with
  | none => none
  | some b => lookupEntry key b.entries

/-- The sequence counter a transaction sees for the bucket `name`. -/
def Tx.sequence (t : Tx) (name : String) : Option Nat :=
  match lookupBucket name t.buckets with
  | none => none
  | some b => some b.sequence

/-- What a call hands back to its caller (value or error), without the state. -/
def Res.outcome {σ α : Type} : Res σ α → Res Unit α
  | .ok a _ => .ok a ()
  | .err e _ => .err e ()
  | .panic => .panic

/-- A call returned normally (nil error). -/
def Res.isOk {σ α : Type} : Res σ α → Bool
  | .ok _ _ => true
  | _ => false

/-- The error is the result of an `errors.Wrap`. -/
def Err.isWrapped : Err → Bool
  | .Wrap _ _ => true
  | _ => false

/-- A call returned a non-nil error. -/
def Res.isErr {σ α : Type} : Res σ α → Bool
  | .err _ _ => true
  | _ => false

/-- The state a call leaves behind, `none` after a panic. -/
def Res.state {σ α : Type} : Res σ α → Option σ
  | .ok _ s => some s
  | .err _ s => some s
  | .panic => none

/-! ## Sequences of operations -/

/-- One call on a `Trx`. -/
inductive Op (Obj : Type) where
  | Create (bucket : String) (idReceiver : Nat → Obj)
  | Put (bucket : String) (id : Nat) (object : Obj)
  | Fetch (bucket : String) (id : Nat) (receiver : Obj)
  | Delete (bucket : String) (id : Nat)
  | InitializeBucket (bucket : String)

/-- The transaction after the call `op`, `none` when the call panics. -/
def Op.run {Obj : Type} (c : Codec Obj) (t : Tx) : Op Obj → Option Tx
  | .Create bucket idReceiver => (Trx.Create c t bucket idReceiver).state
  | .Put bucket id object => (Trx.Put c t bucket id object).state
  | .Fetch bucket id receiver => (Trx.Fetch c t bucket id receiver).state
  | .Delete bucket id => (Trx.Delete t bucket id).state
  | .InitializeBucket bucket => (Trx.InitializeBucket t bucket).state

/-- The identifier a `Trx.Create` on `bucket` hands to its `idReceiver`: the value of
`b.NextSequence()`, when that call returns one. -/
def Trx.createID (t : Tx) (bucket : String) : Option Nat :=
  match Bucket.NextSequence t (Tx.Bucket t bucket) with
  | .ok id _ => some id
  | _ => none

/-- The serialization of objects that carry, next to the object, the identifier their
builder was called with.  The bytes are those of the object alone, so a `Create` with
such a builder writes what the plain `Create` writes. -/
def Codec.tagged {Obj : Type} (c : Codec Obj) : Codec (Nat × Obj) :=
  ⟨fun p => c.Marshal p.2,
   fun bytes p =>
     match c.Unmarshal bytes p.2 with
     | .error e => .error e
     | .ok o => .ok (p.1, o)⟩

/-- The identifiers the call `op` on `t` hands out for the bucket `B`.  For a `Create` on
`B` the call is made with a builder that keeps the identifier `Trx.Create` passes to it in
the object it builds; the identifier is read off the object `Trx.Create` returns.  A
`Create` that returns an error returns no object, and any other call hands out nothing. -/
def Op.handsOut {Obj : Type} (c : Codec Obj) (B : String) (t : Tx) : Op Obj → List Nat
  | .Create bucket idReceiver =>
    if bucket = B then
      match Trx.Create c.tagged t bucket (fun id => (id, idReceiver id)) with
      | .ok object _ => [object.1]
      | _ => []
    else []
  | _ => []

/-- The identifiers handed out, in order, by the `Create` calls on the bucket `B` while
the calls `ops` run one after the other in the transaction `t`.  A panic ends the run. -/
def handedOut {Obj : Type} (c : Codec Obj) (B : String) : Tx → List (Op Obj) → List Nat
  | _, [] => []
  | t, op :: rest =>
    op.handsOut c B t ++
      (match op.run c t with
       | none => []
       | some t1 => handedOut c B t1 rest)

/-- Number of `Create` calls on the bucket `B` among `ops`. -/
def createCount {Obj : Type} (B : String) : List (Op Obj) → Nat
  | [] => 0
  | .Create bucket _ :: rest => (if bucket = B then 1 else 0) + createCount B rest
  | _ :: rest => createCount B rest

/-- The transaction after the calls `ops` have run one after the other, `none` when one of
them panics. -/
def runOps {Obj : Type} (c : Codec Obj) : Tx → List (Op Obj) → Option Tx
  | t, [] => some t
  | t, op :: rest =>
    match op.run c t with
    | none => none
    | some t1 => runOps c t1 rest

/-! ## Sequences of transactions -/

/-- A function passed to `Manager.Update` or `Manager.View`: it makes the calls `ops` on
its `Trx` and then returns `result` (`none` is the nil error).  A function that returns
the error of one of its calls is the script that stops at that call. -/
structure Script (Obj : Type) where
  ops : List (Op Obj)
  result : Option Err

/-- The callback a script stands for. -/
def Script.callback {Obj : Type} (c : Codec Obj) (s : Script Obj) (trx : Tx) : Res Tx Unit :=
  match runOps c trx s.ops with
  | none => .panic
  | some t1 =>
    match s.result with
    | none => .ok () t1
    | some e => .err e t1

/-- One transaction on the store: a `Manager.Update` or a `Manager.View` of a script. -/
inductive Transaction (Obj : Type) where
  | Update (script : Script Obj)
  | View (script : Script Obj)

/-- The identifiers handed out for `B` inside one transaction begun on the manager `m`
(read-write when `writable`). -/
def transactionIDs {Obj : Type} (c : Codec Obj) (B : String) (m : Manager) (writable : Bool)
    (ops : List (Op Obj)) : List Nat :=
  match m.db with
  | none => []
  | some db => handedOut c B ⟨writable, db⟩ ops

/-- The identifiers handed out for `B`, in order, by every transaction of a history run
on the manager `m`, whether the transaction commits or not.  After a transaction that
panics the store is the one from before it (the engine's deferred rollback). -/
def allIDs {Obj : Type} (c : Codec Obj) (B : String) :
    Manager → List (Transaction Obj) → List Nat
  | _, [] => []
  | m, .Update s :: rest =>
    transactionIDs c B m true s.ops ++
      (match Manager.Update m (s.callback c) with
       | .ok _ m1 => allIDs c B m1 rest
       | .err _ m1 => allIDs c B m1 rest
       | .panic => allIDs c B m rest)
  | m, .View s :: rest =>
    transactionIDs c B m false s.ops ++
      (match Manager.View m (s.callback c) with
       | .ok _ m1 => allIDs c B m1 rest
       | .err _ m1 => allIDs c B m1 rest
       | .panic => allIDs c B m rest)

/-- The identifiers handed out for `B`, in order, by the transactions of a history that
are not rolled back: the `Update`s that commit, and the `View`s. -/
def committedIDs {Obj : Type} (c : Codec Obj) (B : String) :
    Manager → List (Transaction Obj) → List Nat
  | _, [] => []
  | m, .Update s :: rest =>
    match Manager.Update m (s.callback c) with
    | .ok _ m1 => transactionIDs c B m true s.ops ++ committedIDs c B m1 rest
    | .err _ m1 => committedIDs c B m1 rest
    | .panic => committedIDs c B m rest
  | m, .View s :: rest =>
    transactionIDs c B m false s.ops ++
      (match Manager.View m (s.callback c) with
       | .ok _ m1 => committedIDs c B m1 rest
       | .err _ m1 => committedIDs c B m1 rest
       | .panic => committedIDs c B m rest)

/-- Number of `Create` calls on the bucket `B` in the scripts of a history. -/
def historyCreates {Obj : Type} (B : String) : List (Transaction Obj) → Nat
  | [] => 0
  | .Update s :: rest => createCount B s.ops + historyCreates B rest
  | .View s :: rest => createCount B s.ops + historyCreates B rest

/-! ## Concrete inputs for the examples -/

/-- A small serialization used at concrete inputs: a number below 256 is encoded as one
byte, a larger one cannot be encoded; one byte decodes to its number. -/
def byteCodec : Codec Nat :=
  ⟨fun n => if n < 256 then .ok [n] else .error (.collaborator "json: unsupported value"),
   fun bytes _ =>
     match bytes with
     | [x] => .ok x
     | _ => .error (.collaborator "unexpected end of JSON input")⟩

/-- A read-write transaction over a store with no bucket. -/
def emptyTx : Tx := ⟨true, []⟩

/-- A read-write transaction over a store whose bucket `widgets` has handed out the
identifiers 1 and 2 and still holds the entry of 2. -/
def widgetsTx : Tx := ⟨true, [("widgets", ⟨2, [(idtob 2, [7])]⟩)]⟩

/-- The same store seen by a read-only transaction. -/
def widgetsView : Tx := ⟨false, [("widgets", ⟨2, [(idtob 2, [7])]⟩)]⟩

/-- A read-write transaction over a store whose bucket `widgets` has its sequence counter
two below the largest `uint64`. -/
def lateTx : Tx := ⟨true, [("widgets", ⟨2 ^ 64 - 2, []⟩)]⟩

/-- An updater that creates the bucket `gadgets`, creates an object in it, and then
returns an error of its own. -/
def failingUpdater (trx : Tx) : Res Tx Unit :=
  match Trx.InitializeBucket trx "gadgets" with
  | .panic => .panic
  | .err e t1 => .err e t1
  | .ok _ t1 =>
    match Trx.Create byteCodec t1 "gadgets" (fun id => id) with
    | .panic => .panic
    | .err e t2 => .err e t2
    | .ok _ t2 => .err (.collaborator "updater gave up") t2

/-! ## Lemmas on the identifier codec -/

theorem bigEndian_PutUint64 (a : Nat) (ha : a < 2 ^ 64) : bigEndian (PutUint64 a) = a := by
  simp only [bigEndian, PutUint64, List.foldl_cons, List.foldl_nil]
  omega

theorem foldl_shift (xs : Bytes) (acc : Nat) :
    xs.foldl (fun a x => a * 256 + x) acc
      = acc * 256 ^ xs.length + xs.foldl (fun a x => a * 256 + x) 0 := by
  induction xs generalizing acc with
  | nil => simp
  | cons x xs ih =>
    simp only [List.foldl_cons, List.length_cons]
    rw [ih (acc * 256 + x), ih (0 * 256 + x)]
    ring

theorem bigEndian_cons (x : Nat) (xs : Bytes) :
    bigEndian (x :: xs) = x * 256 ^ xs.length + bigEndian xs := by
  simp only [bigEndian, List.foldl_cons]
  rw [foldl_shift]
  simp

theorem bigEndian_lt (xs : Bytes) (h : ∀ x ∈ xs, x < 256) :
    bigEndian xs < 256 ^ xs.length := by
  induction xs with
  | nil => simp [bigEndian]
  | cons x xs ih =>
    rw [bigEndian_cons, List.length_cons, pow_succ]
    have hx : x < 256 := h x (List.mem_cons_self x xs)
    have hxs := ih (fun y hy => h y (List.mem_cons_of_mem x hy))
    nlinarith

theorem bytesLess_iff_bigEndian_lt (xs ys : Bytes) (hlen : xs.length = ys.length)
    (hx : ∀ x ∈ xs, x < 256) (hy : ∀ y ∈ ys, y < 256) :
    bytesLess xs ys = true ↔ bigEndian xs < bigEndian ys := by
  induction xs generalizing ys with
  | nil =>
    cases ys with
    | nil => simp [bytesLess, bigEndian]
    | cons y ys => simp at hlen
  | cons x xs ih =>
    cases ys with
    | nil => simp at hlen
    | cons y ys =>
      have hlen1 : xs.length = ys.length := by simpa using hlen
      have hxs := bigEndian_lt xs (fun z hz => hx z (List.mem_cons_of_mem x hz))
      have hys := bigEndian_lt ys (fun z hz => hy z (List.mem_cons_of_mem y hz))
      have ih1 := ih ys hlen1 (fun z hz => hx z (List.mem_cons_of_mem x hz))
        (fun z hz => hy z (List.mem_cons_of_mem y hz))
      rw [bigEndian_cons, bigEndian_cons, bytesLess, hlen1]
      rw [hlen1] at hxs
      generalize 256 ^ ys.length = P at hxs hys
      by_cases h1 : x < y
      · simp only [h1, if_true, true_iff]
        have : (x + 1) * P ≤ y * P := Nat.mul_le_mul_right P h1
        nlinarith
      · by_cases h2 : y < x
        · simp only [h1, h2, if_false, if_true, Bool.false_eq_true, false_iff, not_lt]
          have : (y + 1) * P ≤ x * P := Nat.mul_le_mul_right P h2
          nlinarith
        · have hxy : x = y := by omega
          subst hxy
          simp only [h1, if_false, ih1]
          omega

theorem PutUint64_bound (a : Nat) : ∀ x ∈ PutUint64 a, x < 256 := by
  intro x hx
  simp only [PutUint64, List.mem_cons, List.mem_singleton, List.mem_nil_iff, or_false] at hx
  omega

/-! ## Lemmas on the engine maps -/

theorem lookupBucket_updateBucket_same (n : String) (f : Bucket → Bucket) (db : DB) :
    lookupBucket n (updateBucket n f db) = (lookupBucket n db).map f := by
  induction db with
  | nil => simp [updateBucket, lookupBucket]
  | cons p rest ih =>
    obtain ⟨m, b⟩ := p
    by_cases hmn : m = n
    · simp [updateBucket, lookupBucket, hmn]
    · simp [updateBucket, lookupBucket, hmn, ih]

theorem lookupBucket_updateBucket_other (B n : String) (f : Bucket → Bucket) (db : DB)
    (hB : B ≠ n) : lookupBucket B (updateBucket n f db) = lookupBucket B db := by
  induction db with
  | nil => simp [updateBucket, lookupBucket]
  | cons p rest ih =>
    obtain ⟨m, b⟩ := p
    by_cases hmn : m = n
    · have hnB : ¬ n = B := fun h => hB h.symm
      simp [updateBucket, lookupBucket, hmn, hnB]
    · by_cases hmB : m = B
      · simp [updateBucket, lookupBucket, hmn, hmB, hB]
      · simp [updateBucket, lookupBucket, hmn, hmB, ih]

theorem updateBucket_eq_self (n : String) (f : Bucket → Bucket) (db : DB)
    (h : ∀ b, lookupBucket n db = some b → f b = b) : updateBucket n f db = db := by
  induction db with
  | nil => simp [updateBucket]
  | cons p rest ih =>
    obtain ⟨m, b⟩ := p
    by_cases hmn : m = n
    · have hb : f b = b := h b (by simp [lookupBucket, hmn])
      simp [updateBucket, hmn, hb]
    · have ih1 := ih (fun b1 hb1 => h b1 (by simpa [lookupBucket, hmn] using hb1))
      simp [updateBucket, hmn, ih1]

theorem updateBucket_updateBucket (n : String) (f g : Bucket → Bucket) (db : DB) :
    updateBucket n f (updateBucket n g db) = updateBucket n (fun b => f (g b)) db := by
  induction db with
  | nil => simp [updateBucket]
  | cons p rest ih =>
    obtain ⟨m, b⟩ := p
    by_cases hmn : m = n
    · simp [updateBucket, hmn]
    · simp [updateBucket, hmn, ih]

theorem lookupBucket_append (B n : String) (b : Bucket) (db : DB) :
    lookupBucket B (db ++ [(n, b)])
      = match lookupBucket B db with
        | some x => some x
        | none => if n = B then some b else none := by
  induction db with
  | nil => simp [lookupBucket]
  | cons p rest ih =>
    obtain ⟨m, b1⟩ := p
    by_cases hmB : m = B
    · simp [lookupBucket, hmB]
    · simp [lookupBucket, hmB, ih]

theorem lookupEntry_putEntry_same (key value : Bytes) (es : List (Bytes × Bytes)) :
    lookupEntry key (putEntry key value es) = some value := by
  induction es with
  | nil => simp [putEntry, lookupEntry]
  | cons p rest ih =>
    obtain ⟨k1, v1⟩ := p
    by_cases h1 : k1 = key
    · simp [putEntry, lookupEntry, h1]
    · simp [putEntry, lookupEntry, h1, ih]

theorem lookupEntry_putEntry_other (k key value : Bytes) (es : List (Bytes × Bytes))
    (hk : k ≠ key) : lookupEntry k (putEntry key value es) = lookupEntry k es := by
  induction es with
  | nil =>
    have hk1 : ¬ key = k := fun h => hk h.symm
    simp [putEntry, lookupEntry, hk1]
  | cons p rest ih =>
    obtain ⟨k1, v1⟩ := p
    by_cases h1 : k1 = key
    · have h2 : ¬ key = k := fun h => hk h.symm
      simp [putEntry, lookupEntry, h1, h2]
    · by_cases h2 : k1 = k
      · simp [putEntry, lookupEntry, h2, hk]
      · simp [putEntry, lookupEntry, h1, h2, ih]

theorem lookupEntry_deleteEntry_same (key : Bytes) (es : List (Bytes × Bytes)) :
    lookupEntry key (deleteEntry key es) = none := by
  induction es with
  | nil => simp [deleteEntry, lookupEntry]
  | cons p rest ih =>
    obtain ⟨k1, v1⟩ := p
    by_cases h1 : k1 = key
    · simp [deleteEntry, h1, ih]
    · simp [deleteEntry, lookupEntry, h1, ih]

theorem lookupEntry_deleteEntry_other (k key : Bytes) (es : List (Bytes × Bytes))
    (hk : k ≠ key) : lookupEntry k (deleteEntry key es) = lookupEntry k es := by
  induction es with
  | nil => simp [deleteEntry, lookupEntry]
  | cons p rest ih =>
    obtain ⟨k1, v1⟩ := p
    by_cases h1 : k1 = key
    · have h2 : ¬ key = k := fun h => hk h.symm
      simp [deleteEntry, lookupEntry, h1, ih, h2]
    · by_cases h2 : k1 = k
      · simp [deleteEntry, lookupEntry, h2, hk]
      · simp [deleteEntry, lookupEntry, h1, h2, ih]

theorem deleteEntry_absent (key : Bytes) (es : List (Bytes × Bytes))
    (h : lookupEntry key es = none) : deleteEntry key es = es := by
  induction es with
  | nil => simp [deleteEntry]
  | cons p rest ih =>
    obtain ⟨k1, v1⟩ := p
    by_cases h1 : k1 = key
    · simp [lookupEntry, h1] at h
    · have h2 : lookupEntry key rest = none := by simpa [lookupEntry, h1] using h
      simp [deleteEntry, h1, ih h2]

theorem deleteEntry_deleteEntry (key : Bytes) (es : List (Bytes × Bytes)) :
    deleteEntry key (deleteEntry key es) = deleteEntry key es :=
  deleteEntry_absent key _ (lookupEntry_deleteEntry_same key es)

/-! ## Lemmas on the operations -/

theorem txBucket_eq_none (t : Tx) (name : String) :
    Tx.Bucket t name = none ↔ lookupBucket name t.buckets = none := by
  unfold Tx.Bucket
  cases lookupBucket name t.buckets <;> simp

theorem txBucket_of_lookup (t : Tx) (name : String) (bk : Bucket)
    (h : lookupBucket name t.buckets = some bk) : Tx.Bucket t name = some name := by
  simp [Tx.Bucket, h]

theorem bucketPut_writable (db : DB) (name : String) (id : Nat) (value : Bytes) :
    Bucket.Put ⟨true, db⟩ (some name) (PutUint64 id) value
      = if value.length > MaxValueSize then .err .ErrValueTooLarge ⟨true, db⟩
        else .ok () ⟨true, updateBucket name
          (fun x => ⟨x.sequence, putEntry (PutUint64 id) value x.entries⟩) db⟩ := by
  simp [Bucket.Put, PutUint64, MaxKeySize]

theorem bucketPut_readonly (db : DB) (name : String) (key value : Bytes) :
    Bucket.Put ⟨false, db⟩ (some name) key value = .err .ErrTxNotWritable ⟨false, db⟩ := by
  simp [Bucket.Put]

theorem put_ok {Obj : Type} (c : Codec Obj) (t t1 : Tx) (bucket : String) (id : Nat)
    (object : Obj) (h : Trx.Put c t bucket id object = .ok () t1) :
    ∃ bk bytes, lookupBucket bucket t.buckets = some bk ∧ c.Marshal object = .ok bytes ∧
      t.writable = true ∧
      t1 = ⟨true, updateBucket bucket
        (fun x => ⟨x.sequence, putEntry (idtob id) bytes x.entries⟩) t.buckets⟩ := by
  obtain ⟨w, db⟩ := t
  unfold Trx.Put at h
  cases hm : c.Marshal object with
  | error e => simp [hm] at h
  | ok bytes =>
    cases hb : lookupBucket bucket db with
    | none => simp [hm, Tx.Bucket, hb, Bucket.Put] at h
    | some bk =>
      have hB : Tx.Bucket ⟨w, db⟩ bucket = some bucket := txBucket_of_lookup _ _ bk hb
      cases w with
      | false => simp [hm, hB, bucketPut_readonly] at h
      | true =>
        simp only [hm, hB, idtob, bucketPut_writable] at h
        split_ifs at h
        simp only [Res.ok.injEq, true_and] at h
        exact ⟨bk, bytes, rfl, rfl, rfl, h.symm⟩

theorem create_ok {Obj : Type} (c : Codec Obj) (t t1 : Tx) (bucket : String)
    (idReceiver : Nat → Obj) (object : Obj)
    (h : Trx.Create c t bucket idReceiver = .ok object t1) :
    ∃ bk bytes, lookupBucket bucket t.buckets = some bk ∧
      c.Marshal (idReceiver ((bk.sequence + 1) % uint64Size)) = .ok bytes ∧
      t.writable = true ∧
      object = idReceiver ((bk.sequence + 1) % uint64Size) ∧
      t1 = ⟨true, updateBucket bucket
        (fun x => ⟨(bk.sequence + 1) % uint64Size,
          putEntry (itob ((bk.sequence + 1) % uint64Size)) bytes x.entries⟩) t.buckets⟩ := by
  obtain ⟨w, db⟩ := t
  unfold Trx.Create at h
  cases hb : lookupBucket bucket db with
  | none => simp [Tx.Bucket, hb, Bucket.NextSequence] at h
  | some bk =>
    have hB : Tx.Bucket ⟨w, db⟩ bucket = some bucket := txBucket_of_lookup _ _ bk hb
    cases w with
    | false => simp [hB, Bucket.NextSequence] at h
    | true =>
      simp only [hB, Bucket.NextSequence, hb] at h
      simp only [Bool.true_eq_false, if_false] at h
      cases hm : c.Marshal (idReceiver ((bk.sequence + 1) % uint64Size)) with
      | error e => simp [hm] at h
      | ok bytes =>
        simp only [hm, itob, bucketPut_writable] at h
        split_ifs at h
        simp only [Res.ok.injEq, updateBucket_updateBucket] at h
        exact ⟨bk, bytes, rfl, hm, rfl, h.1.symm, h.2.symm⟩

theorem lookup_of_txBucket (t : Tx) (name : String) (h : Tx.Bucket t name ≠ none) :
    ∃ bk, lookupBucket name t.buckets = some bk := by
  cases hb : lookupBucket name t.buckets with
  | none => exact absurd ((txBucket_eq_none t name).2 hb) h
  | some bk => exact ⟨bk, rfl⟩

theorem fetch_eq {Obj : Type} (c : Codec Obj) (t : Tx) (bucket : String) (id : Nat)
    (receiver : Obj) (bk : Bucket) (hb : lookupBucket bucket t.buckets = some bk) :
    Trx.Fetch c t bucket id receiver
      = match lookupEntry (idtob id) bk.entries with
        | none => .ok receiver t
        | some bytes =>
          match c.Unmarshal bytes receiver with
          | .error e => .err e t
          | .ok object => .ok object t := by
  simp only [Trx.Fetch, txBucket_of_lookup t bucket bk hb, Bucket.Get, hb]
  cases lookupEntry (idtob id) bk.entries <;> rfl

theorem delete_eq (db : DB) (bucket : String) (id : Nat) (bk : Bucket)
    (hb : lookupBucket bucket db = some bk) :
    Trx.Delete ⟨true, db⟩ bucket id
      = .ok () ⟨true, updateBucket bucket
          (fun x => ⟨x.sequence, deleteEntry (idtob id) x.entries⟩) db⟩ := by
  simp [Trx.Delete, txBucket_of_lookup ⟨true, db⟩ bucket bk hb, Bucket.Delete]

/-! ## The claims -/

/-- C6: for 64-bit identifiers `a` and `b`, the keys `idtob a` and `idtob b` (and `itob`
of the same numbers) are exactly 8 bytes long, are the big-endian encodings of `a` and
`b`, and `a < b` holds exactly when `idtob a` precedes `idtob b` byte-lexicographically;
in particular distinct identifiers have distinct keys. -/
theorem idtob_big_endian_order (a b : Nat) (ha : a < 2 ^ 64) (hb : b < 2 ^ 64) :
    (idtob a).length = 8 ∧ (idtob b).length = 8 ∧
    itob a = idtob a ∧ itob b = idtob b ∧
    (∀ x ∈ idtob a, x < 256) ∧ (∀ x ∈ idtob b, x < 256) ∧
    bigEndian (idtob a) = a ∧ bigEndian (idtob b) = b ∧
    (a < b ↔ bytesLess (idtob a) (idtob b) = true) ∧
    (a ≠ b → idtob a ≠ idtob b) := by
  have hord : bytesLess (idtob a) (idtob b) = true ↔ a < b := by
    have h := bytesLess_iff_bigEndian_lt (PutUint64 a) (PutUint64 b) (by simp [PutUint64])
      (PutUint64_bound a) (PutUint64_bound b)
    rw [bigEndian_PutUint64 a ha, bigEndian_PutUint64 b hb] at h
    exact h
  refine ⟨by simp [idtob, PutUint64], by simp [idtob, PutUint64], rfl, rfl,
    PutUint64_bound a, PutUint64_bound b, bigEndian_PutUint64 a ha, bigEndian_PutUint64 b hb,
    hord.symm, ?_⟩
  intro hne heq
  apply hne
  have h1 := bigEndian_PutUint64 a ha
  have h2 := bigEndian_PutUint64 b hb
  simp only [idtob] at heq
  rw [heq] at h1
  omega

/-- Witness of C6 at the identifiers 255 and 256, whose keys differ in two bytes. -/
theorem idtob_big_endian_order_witness :
    (255 : Nat) < 2 ^ 64 ∧ (256 : Nat) < 2 ^ 64 ∧
    ((idtob 255).length = 8 ∧ (idtob 256).length = 8 ∧
    itob 255 = idtob 255 ∧ itob 256 = idtob 256 ∧
    (∀ x ∈ idtob 255, x < 256) ∧ (∀ x ∈ idtob 256, x < 256) ∧
    bigEndian (idtob 255) = 255 ∧ bigEndian (idtob 256) = 256 ∧
    (255 < 256 ↔ bytesLess (idtob 255) (idtob 256) = true) ∧
    (255 ≠ 256 → idtob 255 ≠ idtob 256)) :=
  ⟨by norm_num, by norm_num, idtob_big_endian_order 255 256 (by norm_num) (by norm_num)⟩

/-- C1 (as amended): on a bucket name for which `tx.Bucket` returns nil, `Trx.Create`,
`Trx.Fetch` and `Trx.Delete` do not return at all, they panic; `Trx.Put` returns the
wrapped marshalling error when the object does not serialize and panics otherwise.  No
call returns an error that says the bucket is missing. -/
theorem uninitialized_bucket_panics {Obj : Type} (c : Codec Obj) (t : Tx) (bucket : String)
    (id : Nat) (object receiver : Obj) (idReceiver : Nat → Obj)
    (h : Tx.Bucket t bucket = none) :
    Trx.Create c t bucket idReceiver = .panic ∧
    Trx.Fetch c t bucket id receiver = .panic ∧
    Trx.Delete t bucket id = .panic ∧
    Trx.Put c t bucket id object
      = (match c.Marshal object with
         | .error e => .err (.Wrap e "failed to marshal object to JSON") t
         | .ok _ => .panic) := by
  refine ⟨?_, ?_, ?_, ?_⟩
  · simp [Trx.Create, h, Bucket.NextSequence]
  · simp [Trx.Fetch, h, Bucket.Get]
  · simp [Trx.Delete, h, Bucket.Delete]
  · cases hm : c.Marshal object <;> simp [Trx.Put, h, Bucket.Put, hm]

/-- Witness of the amended C1 on a store with no bucket. -/
theorem uninitialized_bucket_panics_witness :
    Tx.Bucket emptyTx "widgets" = none ∧
    (Trx.Create byteCodec emptyTx "widgets" (fun id => id) = .panic ∧
    Trx.Fetch byteCodec emptyTx "widgets" 1 0 = .panic ∧
    Trx.Delete emptyTx "widgets" 1 = .panic ∧
    Trx.Put byteCodec emptyTx "widgets" 1 7
      = (match byteCodec.Marshal 7 with
         | .error e => .err (.Wrap e "failed to marshal object to JSON") emptyTx
         | .ok _ => .panic)) :=
  ⟨by decide, uninitialized_bucket_panics byteCodec emptyTx "widgets" 1 7 0 (fun id => id)
    (by decide)⟩

/-- Counterexample to C1 as stated: on a store with no bucket, `Create`, `Put` (of an
object that serializes), `Fetch` and `Delete` on the bucket `widgets` panic; none of them
returns an error. -/
theorem uninitialized_bucket_returns_no_error :
    Tx.Bucket emptyTx "widgets" = none ∧
    Trx.Create byteCodec emptyTx "widgets" (fun id => id) = .panic ∧
    (Trx.Create byteCodec emptyTx "widgets" (fun id => id)).isErr = false ∧
    (Trx.Put byteCodec emptyTx "widgets" 1 7).isErr = false ∧
    (Trx.Fetch byteCodec emptyTx "widgets" 1 0).isErr = false ∧
    (Trx.Delete emptyTx "widgets" 1).isErr = false := by
  decide

/-- C3: when `Put(B, id, obj)` succeeds and the serialization of `obj` round-trips, the
`Fetch(B, id)` that follows returns no error and fills the receiver with `obj`, whatever
entry `id` had before the `Put`. -/
theorem fetch_after_put {Obj : Type} (c : Codec Obj) (t t1 : Tx) (B : String) (id : Nat)
    (obj receiver : Obj)
    (hput : Trx.Put c t B id obj = .ok () t1)
    (hrt : ∀ bytes, c.Marshal obj = .ok bytes → c.Unmarshal bytes receiver = .ok obj) :
    Trx.Fetch c t1 B id receiver = .ok obj t1 := by
  obtain ⟨bk, bytes, hb, hm, _, ht1⟩ := put_ok c t t1 B id obj hput
  have hb1 : lookupBucket B t1.buckets
      = some ⟨bk.sequence, putEntry (idtob id) bytes bk.entries⟩ := by
    rw [ht1]
    simp [lookupBucket_updateBucket_same, hb]
  rw [fetch_eq c t1 B id receiver _ hb1]
  simp [lookupEntry_putEntry_same, hrt bytes hm]

/-- Witness of C3: in the bucket `widgets`, overwrite the entry of 2 and add one for 9. -/
theorem fetch_after_put_witness :
    Trx.Put byteCodec widgetsTx "widgets" 2 41
      = .ok () ⟨true, [("widgets", ⟨2, [(idtob 2, [41])]⟩)]⟩ ∧
    Trx.Fetch byteCodec ⟨true, [("widgets", ⟨2, [(idtob 2, [41])]⟩)]⟩ "widgets" 2 0
      = .ok 41 ⟨true, [("widgets", ⟨2, [(idtob 2, [41])]⟩)]⟩ ∧
    Trx.Fetch byteCodec ⟨true, [("widgets", ⟨2, [(idtob 2, [7]), (idtob 9, [41])]⟩)]⟩
        "widgets" 9 0
      = .ok 41 ⟨true, [("widgets", ⟨2, [(idtob 2, [7]), (idtob 9, [41])]⟩)]⟩ :=
  ⟨by decide,
   fetch_after_put byteCodec widgetsTx _ "widgets" 2 41 0 (by decide)
     (by intro bytes h; cases h; rfl),
   fetch_after_put byteCodec widgetsTx _ "widgets" 9 41 0 (by decide)
     (by intro bytes h; cases h; rfl)⟩

theorem createID_eq (t : Tx) (bucket : String) (bk : Bucket)
    (hb : lookupBucket bucket t.buckets = some bk) :
    Trx.createID t bucket
      = if t.writable = false then none else some ((bk.sequence + 1) % uint64Size) := by
  obtain ⟨w, db⟩ := t
  cases w <;>
    simp [Trx.createID, txBucket_of_lookup ⟨_, db⟩ bucket bk hb, Bucket.NextSequence,
      show lookupBucket bucket db = some bk from hb]

/-- C4: a successful `Create(B, build)` on an initialized bucket takes the next sequence
number `n` of `B`, returns the object `build n`, and stores the serialization of `build n`
under `itob n`, which is the key `idtob n` a following `Fetch(B, n)` looks up: that
`Fetch` gets the stored bytes from the engine and hands them to the decoder. -/
theorem create_stores_built_object {Obj : Type} (c : Codec Obj) (t t1 : Tx) (B : String)
    (build : Nat → Obj) (o receiver : Obj) (bk : Bucket)
    (hB : lookupBucket B t.buckets = some bk)
    (hc : Trx.Create c t B build = .ok o t1) :
    Trx.createID t B = some ((bk.sequence + 1) % uint64Size) ∧
    o = build ((bk.sequence + 1) % uint64Size) ∧
    Tx.sequence t1 B = some ((bk.sequence + 1) % uint64Size) ∧
    itob ((bk.sequence + 1) % uint64Size) = idtob ((bk.sequence + 1) % uint64Size) ∧
    ∃ bytes, c.Marshal (build ((bk.sequence + 1) % uint64Size)) = .ok bytes ∧
      Tx.entry t1 B (itob ((bk.sequence + 1) % uint64Size)) = some bytes ∧
      Bucket.Get t1 (Tx.Bucket t1 B) (idtob ((bk.sequence + 1) % uint64Size))
        = .ok (some bytes) t1 ∧
      Trx.Fetch c t1 B ((bk.sequence + 1) % uint64Size) receiver
        = (match c.Unmarshal bytes receiver with
           | .error e => .err e t1
           | .ok x => .ok x t1) := by
  obtain ⟨bk1, bytes, hb, hm, hw, ho, ht1⟩ := create_ok c t t1 B build o hc
  have hbk : bk1 = bk := by
    rw [hB] at hb
    exact (Option.some.inj hb).symm
  subst hbk
  have hb1 : lookupBucket B t1.buckets
      = some ⟨(bk1.sequence + 1) % uint64Size,
          putEntry (itob ((bk1.sequence + 1) % uint64Size)) bytes bk1.entries⟩ := by
    rw [ht1]
    simp [lookupBucket_updateBucket_same, hb]
  refine ⟨?_, ho, ?_, rfl, bytes, hm, ?_, ?_, ?_⟩
  · rw [createID_eq t B bk1 hb]
    simp [hw]
  · simp [Tx.sequence, hb1]
  · simp [Tx.entry, hb1, lookupEntry_putEntry_same]
  · simp only [txBucket_of_lookup t1 B _ hb1, Bucket.Get, hb1]
    simp [itob, idtob, lookupEntry_putEntry_same]
  · rw [fetch_eq c t1 B _ receiver _ hb1]
    simp [itob, idtob, lookupEntry_putEntry_same]

/-- Witness of C4: the third `Create` in the bucket `widgets`. -/
theorem create_stores_built_object_witness :
    lookupBucket "widgets" widgetsTx.buckets = some ⟨2, [(idtob 2, [7])]⟩ ∧
    Trx.Create byteCodec widgetsTx "widgets" (fun id => 10 * id)
      = .ok 30 ⟨true, [("widgets", ⟨3, [(idtob 2, [7]), (idtob 3, [30])]⟩)]⟩ ∧
    Trx.Fetch byteCodec ⟨true, [("widgets", ⟨3, [(idtob 2, [7]), (idtob 3, [30])]⟩)]⟩
        "widgets" 3 0
      = .ok 30 ⟨true, [("widgets", ⟨3, [(idtob 2, [7]), (idtob 3, [30])]⟩)]⟩ ∧
    Trx.createID widgetsTx "widgets" = some 3 :=
  ⟨by decide, by decide, by decide,
   (create_stores_built_object byteCodec widgetsTx
     ⟨true, [("widgets", ⟨3, [(idtob 2, [7]), (idtob 3, [30])]⟩)]⟩ "widgets"
     (fun id => 10 * id) 30 0 ⟨2, [(idtob 2, [7])]⟩ (by decide) (by decide)).1⟩

/-- C5: on an initialized bucket, `Fetch(B, id)` of an `id` that has no entry returns no
error and leaves the receiver as it was; this is so for an `id` never written and for one
whose entry a `Delete` has just removed. -/
theorem fetch_absent_not_found {Obj : Type} (c : Codec Obj) (t : Tx) (B : String) (id : Nat)
    (receiver : Obj) (hB : Tx.Bucket t B ≠ none) :
    (Tx.entry t B (idtob id) = none → Trx.Fetch c t B id receiver = .ok receiver t) ∧
    (∀ t1, Trx.Delete t B id = .ok () t1 →
      Tx.entry t1 B (idtob id) = none ∧ Trx.Fetch c t1 B id receiver = .ok receiver t1) := by
  obtain ⟨bk, hb⟩ := lookup_of_txBucket t B hB
  constructor
  · intro habs
    rw [fetch_eq c t B id receiver bk hb]
    simp only [Tx.entry, hb] at habs
    simp [habs]
  · intro t1 hdel
    obtain ⟨w, db⟩ := t
    cases w with
    | false =>
      simp [Trx.Delete, txBucket_of_lookup ⟨false, db⟩ B bk hb, Bucket.Delete] at hdel
    | true =>
      rw [delete_eq db B id bk hb] at hdel
      simp only [Res.ok.injEq, true_and] at hdel
      have hb1 : lookupBucket B t1.buckets
          = some ⟨bk.sequence, deleteEntry (idtob id) bk.entries⟩ := by
        rw [← hdel]
        simp [lookupBucket_updateBucket_same, show lookupBucket B db = some bk from hb]
      constructor
      · simp [Tx.entry, hb1, lookupEntry_deleteEntry_same]
      · rw [fetch_eq c t1 B id receiver _ hb1]
        simp [lookupEntry_deleteEntry_same]

/-- Witness of C5: in the bucket `widgets`, 5 was never written and 2 is deleted first. -/
theorem fetch_absent_not_found_witness :
    Tx.Bucket widgetsTx "widgets" ≠ none ∧
    Trx.Fetch byteCodec widgetsTx "widgets" 5 99 = .ok 99 widgetsTx ∧
    Trx.Delete widgetsTx "widgets" 2 = .ok () ⟨true, [("widgets", ⟨2, []⟩)]⟩ ∧
    Trx.Fetch byteCodec ⟨true, [("widgets", ⟨2, []⟩)]⟩ "widgets" 2 99
      = .ok 99 ⟨true, [("widgets", ⟨2, []⟩)]⟩ :=
  ⟨by decide,
   (fetch_absent_not_found byteCodec widgetsTx "widgets" 5 99 (by decide)).1 (by decide),
   by decide,
   ((fetch_absent_not_found byteCodec widgetsTx "widgets" 2 99 (by decide)).2 _
     (by decide)).2⟩

/-- C9 (as amended): in a read-write transaction, `Delete(B, id)` on an initialized bucket
succeeds whether or not `id` has an entry; deleting an absent `id` leaves the store
unchanged, and a second `Delete(B, id)` succeeds too and leaves the state the first one
left. -/
theorem delete_idempotent_when_writable (t : Tx) (B : String) (id : Nat)
    (hw : t.writable = true) (hB : Tx.Bucket t B ≠ none) :
    ∃ t1, Trx.Delete t B id = .ok () t1 ∧
      (Tx.entry t B (idtob id) = none → t1 = t) ∧
      Tx.entry t1 B (idtob id) = none ∧
      Trx.Delete t1 B id = .ok () t1 := by
  obtain ⟨bk, hb⟩ := lookup_of_txBucket t B hB
  obtain ⟨w, db⟩ := t
  simp only at hw
  subst hw
  have hb0 : lookupBucket B db = some bk := hb
  have hb1 : lookupBucket B (updateBucket B
      (fun x => ⟨x.sequence, deleteEntry (idtob id) x.entries⟩) db)
      = some ⟨bk.sequence, deleteEntry (idtob id) bk.entries⟩ := by
    simp [lookupBucket_updateBucket_same, hb0]
  refine ⟨_, delete_eq db B id bk hb0, ?_, ?_, ?_⟩
  · intro habs
    simp only [Tx.entry, hb0] at habs
    have : updateBucket B (fun x => ⟨x.sequence, deleteEntry (idtob id) x.entries⟩) db
        = db := by
      apply updateBucket_eq_self
      intro b hbb
      rw [hb0] at hbb
      cases hbb
      simp [deleteEntry_absent _ _ habs]
    rw [this]
  · simp [Tx.entry, hb1, lookupEntry_deleteEntry_same]
  · rw [delete_eq _ B id _ hb1, updateBucket_updateBucket]
    simp [deleteEntry_deleteEntry]

/-- Witness of the amended C9: delete the entry of 2 in `widgets`, twice. -/
theorem delete_idempotent_when_writable_witness :
    widgetsTx.writable = true ∧ Tx.Bucket widgetsTx "widgets" ≠ none ∧
    Trx.Delete widgetsTx "widgets" 2 = .ok () ⟨true, [("widgets", ⟨2, []⟩)]⟩ ∧
    Trx.Delete ⟨true, [("widgets", ⟨2, []⟩)]⟩ "widgets" 2
      = .ok () ⟨true, [("widgets", ⟨2, []⟩)]⟩ ∧
    ∃ t1, Trx.Delete widgetsTx "widgets" 5 = .ok () t1 ∧
      (Tx.entry widgetsTx "widgets" (idtob 5) = none → t1 = widgetsTx) ∧
      Tx.entry t1 "widgets" (idtob 5) = none ∧
      Trx.Delete t1 "widgets" 5 = .ok () t1 :=
  ⟨by decide, by decide, by decide, by decide,
   delete_idempotent_when_writable widgetsTx "widgets" 5 (by decide) (by decide)⟩

/-- Counterexample to C9 as stated: in a read-only transaction (the `Trx` of
`Manager.View`) the bucket `widgets` is initialized, and `Delete` fails with
`ErrTxNotWritable` both for the present identifier 2 and for the absent identifier 5. -/
theorem delete_fails_in_view :
    Tx.Bucket widgetsView "widgets" ≠ none ∧
    Trx.Delete widgetsView "widgets" 2 = .err .ErrTxNotWritable widgetsView ∧
    Trx.Delete widgetsView "widgets" 5 = .err .ErrTxNotWritable widgetsView := by
  decide

theorem idtob_injective (a b : Nat) (ha : a < 2 ^ 64) (hb : b < 2 ^ 64)
    (h : idtob a = idtob b) : a = b := by
  have h1 := bigEndian_PutUint64 a ha
  have h2 := bigEndian_PutUint64 b hb
  simp only [idtob] at h
  rw [h] at h1
  omega

theorem createID_congr (t t1 : Tx) (name : String) (hw : t1.writable = t.writable)
    (hs : Tx.sequence t1 name = Tx.sequence t name) :
    Trx.createID t1 name = Trx.createID t name := by
  simp only [Tx.sequence] at hs
  cases hb : lookupBucket name t.buckets with
  | none =>
    cases hb1 : lookupBucket name t1.buckets with
    | none =>
      simp [Trx.createID, (txBucket_eq_none t name).2 hb, (txBucket_eq_none t1 name).2 hb1,
        Bucket.NextSequence]
    | some bk1 => simp [hb, hb1] at hs
  | some bk =>
    cases hb1 : lookupBucket name t1.buckets with
    | none => simp [hb, hb1] at hs
    | some bk1 =>
      simp only [hb, hb1, Option.some.injEq] at hs
      rw [createID_eq t name bk hb, createID_eq t1 name bk1 hb1, hw, hs]

/-- C10: a successful `Put(B, id, obj)` changes only the entry at `(B, id)`: the sequence
counter of every bucket is unchanged, so the next `Create` on any bucket is handed the
same identifier as without the `Put`; the set of buckets is unchanged; the entry under
every other key of `B` (in particular under every other 64-bit identifier) and under
every key of every other bucket is unchanged.  When the serialization of `obj` fails,
`Put` returns that failure wrapped and leaves the whole store unchanged. -/
theorem put_changes_only_its_entry {Obj : Type} (c : Codec Obj) (t : Tx) (B : String)
    (id : Nat) (obj : Obj) :
    (∀ t1, Trx.Put c t B id obj = .ok () t1 →
      (∀ name, Tx.sequence t1 name = Tx.sequence t name) ∧
      (∀ name, Trx.createID t1 name = Trx.createID t name) ∧
      (∀ name, Tx.Bucket t1 name = Tx.Bucket t name) ∧
      (∀ name key, name ≠ B ∨ key ≠ idtob id →
        Tx.entry t1 name key = Tx.entry t name key) ∧
      (∀ id2, id < 2 ^ 64 → id2 < 2 ^ 64 → id2 ≠ id →
        Tx.entry t1 B (idtob id2) = Tx.entry t B (idtob id2))) ∧
    (∀ e, c.Marshal obj = .error e →
      Trx.Put c t B id obj = .err (.Wrap e "failed to marshal object to JSON") t) := by
  constructor
  · intro t1 hput
    obtain ⟨bk, bytes, hb, _, hw, ht1⟩ := put_ok c t t1 B id obj hput
    have hlook : ∀ name, lookupBucket name t1.buckets
        = if name = B then some ⟨bk.sequence, putEntry (idtob id) bytes bk.entries⟩
          else lookupBucket name t.buckets := by
      intro name
      rw [ht1]
      by_cases hn : name = B
      · subst hn
        simp [lookupBucket_updateBucket_same, hb]
      · simp [lookupBucket_updateBucket_other name B _ _ hn, hn]
    have hseq : ∀ name, Tx.sequence t1 name = Tx.sequence t name := by
      intro name
      simp only [Tx.sequence, hlook name]
      by_cases hn : name = B
      · subst hn
        simp [hb]
      · simp [hn]
    have hentry : ∀ name key, name ≠ B ∨ key ≠ idtob id →
        Tx.entry t1 name key = Tx.entry t name key := by
      intro name key hne
      simp only [Tx.entry, hlook name]
      by_cases hn : name = B
      · subst hn
        have hk : key ≠ idtob id := by
          cases hne with
          | inl h => exact absurd rfl h
          | inr h => exact h
        simp [hb, lookupEntry_putEntry_other key (idtob id) bytes bk.entries hk]
      · simp [hn]
    refine ⟨hseq, ?_, ?_, hentry, ?_⟩
    · intro name
      exact createID_congr t t1 name (by rw [ht1, hw]) (hseq name)
    · intro name
      simp only [Tx.Bucket, hlook name]
      by_cases hn : name = B
      · subst hn
        simp [hb]
      · simp [hn]
    · intro id2 h1 h2 hne
      exact hentry B (idtob id2) (Or.inr (fun h => hne (idtob_injective id2 id h2 h1 h)))
  · intro e he
    simp [Trx.Put, he]

/-- Witness of C10: a `Put` at 9 in `widgets` keeps the counter at 2 and the entry of 2,
and a `Put` of an object that does not serialize leaves the store as it was. -/
theorem put_changes_only_its_entry_witness :
    Trx.Put byteCodec widgetsTx "widgets" 9 41
      = .ok () ⟨true, [("widgets", ⟨2, [(idtob 2, [7]), (idtob 9, [41])]⟩)]⟩ ∧
    Trx.createID ⟨true, [("widgets", ⟨2, [(idtob 2, [7]), (idtob 9, [41])]⟩)]⟩ "widgets"
      = Trx.createID widgetsTx "widgets" ∧
    Tx.entry ⟨true, [("widgets", ⟨2, [(idtob 2, [7]), (idtob 9, [41])]⟩)]⟩ "widgets" (idtob 2)
      = Tx.entry widgetsTx "widgets" (idtob 2) ∧
    Trx.Put byteCodec widgetsTx "widgets" 9 300
      = .err (.Wrap (.collaborator "json: unsupported value")
          "failed to marshal object to JSON") widgetsTx :=
  ⟨by decide,
   ((put_changes_only_its_entry byteCodec widgetsTx "widgets" 9 41).1 _ (by decide)).2.1
     "widgets",
   ((put_changes_only_its_entry byteCodec widgetsTx "widgets" 9 41).1 _
     (by decide)).2.2.2.2 2 (by norm_num) (by norm_num) (by norm_num),
   (put_changes_only_its_entry byteCodec widgetsTx "widgets" 9 300).2 _ rfl⟩

/-- C7: when the function passed to `Manager.Update` returns a failure `e`, `Update`
returns exactly `e` and leaves the store as it was before the call, whatever the function
wrote before failing; every `View` that follows sees the state from before the
`Update`. -/
theorem update_failure_rolls_back (db : DB) (updater : Tx → Res Tx Unit) (e : Err)
    (t1 : Tx) (hfail : updater ⟨true, db⟩ = .err e t1) :
    Manager.Update ⟨some db⟩ updater = .err e ⟨some db⟩ ∧
    (∀ m1, (Manager.Update ⟨some db⟩ updater).state = some m1 →
      ∀ viewer, Manager.View m1 viewer = Manager.View ⟨some db⟩ viewer) := by
  have hup : Manager.Update ⟨some db⟩ updater = .err e ⟨some db⟩ := by
    simp [Manager.Update, DB.Update, hfail]
  refine ⟨hup, ?_⟩
  intro m1 hm1 viewer
  rw [hup] at hm1
  simp only [Res.state, Option.some.injEq] at hm1
  rw [← hm1]

/-- Witness of C7: `failingUpdater` creates a bucket and an object in it, then fails; the
store keeps only the bucket `widgets`. -/
theorem update_failure_rolls_back_witness :
    failingUpdater ⟨true, widgetsTx.buckets⟩
      = .err (.collaborator "updater gave up")
          ⟨true, [("widgets", ⟨2, [(idtob 2, [7])]⟩), ("gadgets", ⟨1, [(idtob 1, [1])]⟩)]⟩ ∧
    Manager.Update ⟨some widgetsTx.buckets⟩ failingUpdater
      = .err (.collaborator "updater gave up") ⟨some widgetsTx.buckets⟩ :=
  ⟨by decide,
   (update_failure_rolls_back widgetsTx.buckets failingUpdater
     (.collaborator "updater gave up")
     ⟨true, [("widgets", ⟨2, [(idtob 2, [7])]⟩), ("gadgets", ⟨1, [(idtob 1, [1])]⟩)]⟩
     (by decide)).1⟩

/-- C8 (as amended): in `Trx.Create` and `Trx.Put` every failure of an engine call
(`NextSequence`, `Put`) is returned wrapped with a message that names the failed step,
and every error these two return is a wrapped one; a failure of the engine call inside
`Trx.Delete` or `Trx.InitializeBucket` makes the operation return an error, so none is
swallowed. -/
theorem create_put_wrap_engine_failures {Obj : Type} (c : Codec Obj) (t : Tx)
    (bucket : String) (id : Nat) (object : Obj) (idReceiver : Nat → Obj) :
    (∀ e s, Bucket.NextSequence t (Tx.Bucket t bucket) = .err e s →
      Trx.Create c t bucket idReceiver = .err (.Wrap e "failed to generate object ID") s) ∧
    (∀ n t1 bytes e s, Bucket.NextSequence t (Tx.Bucket t bucket) = .ok n t1 →
      c.Marshal (idReceiver n) = .ok bytes →
      Bucket.Put t1 (Tx.Bucket t bucket) (itob n) bytes = .err e s →
      Trx.Create c t bucket idReceiver = .err (.Wrap e "failed to put object to bucket") s) ∧
    (∀ bytes e s, c.Marshal object = .ok bytes →
      Bucket.Put t (Tx.Bucket t bucket) (idtob id) bytes = .err e s →
      Trx.Put c t bucket id object = .err (.Wrap e "failed to put object to bucket") s) ∧
    (∀ e s, Trx.Create c t bucket idReceiver = .err e s → e.isWrapped = true) ∧
    (∀ e s, Trx.Put c t bucket id object = .err e s → e.isWrapped = true) ∧
    (∀ e s, Bucket.Delete t (Tx.Bucket t bucket) (idtob id) = .err e s →
      (Trx.Delete t bucket id).isErr = true) ∧
    (∀ e s, Tx.CreateBucketIfNotExists t bucket = .err e s →
      (Trx.InitializeBucket t bucket).isErr = true) := by
  refine ⟨?_, ?_, ?_, ?_, ?_, ?_, ?_⟩
  · intro e s h
    simp [Trx.Create, h]
  · intro n t1 bytes e s h hm hp
    simp [Trx.Create, h, hm, hp]
  · intro bytes e s hm hp
    simp [Trx.Put, hm, hp]
  · intro e s h
    unfold Trx.Create at h
    cases hn : Bucket.NextSequence t (Tx.Bucket t bucket) with
    | panic => simp [hn] at h
    | err e1 s1 =>
      simp only [hn, Res.err.injEq] at h
      rw [← h.1]
      rfl
    | ok n t1 =>
      simp only [hn] at h
      cases hm : c.Marshal (idReceiver n) with
      | error e1 =>
        simp only [hm, Res.err.injEq] at h
        rw [← h.1]
        rfl
      | ok bytes =>
        simp only [hm] at h
        cases hp : Bucket.Put t1 (Tx.Bucket t bucket) (itob n) bytes with
        | panic => simp [hp] at h
        | ok u s1 => simp [hp] at h
        | err e1 s1 =>
          simp only [hp, Res.err.injEq] at h
          rw [← h.1]
          rfl
  · intro e s h
    unfold Trx.Put at h
    cases hm : c.Marshal object with
    | error e1 =>
      simp only [hm, Res.err.injEq] at h
      rw [← h.1]
      rfl
    | ok bytes =>
      simp only [hm] at h
      cases hp : Bucket.Put t (Tx.Bucket t bucket) (idtob id) bytes with
      | panic => simp [hp] at h
      | ok u s1 => simp [hp] at h
      | err e1 s1 =>
        simp only [hp, Res.err.injEq] at h
        rw [← h.1]
        rfl
  · intro e s h
    simp [Trx.Delete, h, Res.isErr]
  · intro e s h
    simp [Trx.InitializeBucket, h, Res.isErr]

/-- Witness of the amended C8: `Create` and `Put` in a read-only transaction return the
engine's `ErrTxNotWritable` wrapped with the name of the failed step. -/
theorem create_put_wrap_engine_failures_witness :
    Bucket.NextSequence widgetsView (Tx.Bucket widgetsView "widgets")
      = .err .ErrTxNotWritable widgetsView ∧
    Trx.Create byteCodec widgetsView "widgets" (fun n => n)
      = .err (.Wrap .ErrTxNotWritable "failed to generate object ID") widgetsView ∧
    Bucket.Put widgetsView (Tx.Bucket widgetsView "widgets") (idtob 2) [41]
      = .err .ErrTxNotWritable widgetsView ∧
    Trx.Put byteCodec widgetsView "widgets" 2 41
      = .err (.Wrap .ErrTxNotWritable "failed to put object to bucket") widgetsView :=
  ⟨by decide,
   (create_put_wrap_engine_failures byteCodec widgetsView "widgets" 2 41 (fun n => n)).1
     _ _ (by decide),
   by decide,
   (create_put_wrap_engine_failures byteCodec widgetsView "widgets" 2 41
     (fun n => n)).2.2.1 [41] _ _ rfl (by decide)⟩

/-- Counterexample to C8 as stated: `Delete` in a read-only transaction and
`InitializeBucket` with an empty name return the engine's error as it is, with no
wrapping; and the wrapping `Create` adds does not name the bucket. -/
theorem engine_failure_returned_unwrapped :
    Trx.Delete widgetsView "widgets" 2 = .err .ErrTxNotWritable widgetsView ∧
    Err.isWrapped .ErrTxNotWritable = false ∧
    Trx.InitializeBucket emptyTx "" = .err .ErrBucketNameRequired emptyTx ∧
    Err.isWrapped .ErrBucketNameRequired = false ∧
    Trx.Create byteCodec widgetsView "widgets" (fun n => n)
      = .err (.Wrap .ErrTxNotWritable "failed to generate object ID") widgetsView := by
  decide

/-! ## The sequence counter along a run -/

theorem sequence_updateBucket (w : Bool) (db : DB) (B n : String) (f : Bucket → Bucket)
    (hf : ∀ x, (f x).sequence = x.sequence) :
    Tx.sequence ⟨w, updateBucket n f db⟩ B = Tx.sequence ⟨w, db⟩ B := by
  simp only [Tx.sequence]
  by_cases hn : B = n
  · subst hn
    rw [lookupBucket_updateBucket_same]
    cases lookupBucket B db <;> simp [hf]
  · rw [lookupBucket_updateBucket_other B n f db hn]

theorem sequence_put {Obj : Type} (c : Codec Obj) (t t1 : Tx) (bucket : String) (id : Nat)
    (object : Obj) (B : String) (h : (Trx.Put c t bucket id object).state = some t1) :
    Tx.sequence t1 B = Tx.sequence t B := by
  obtain ⟨w, db⟩ := t
  unfold Trx.Put at h
  cases hm : c.Marshal object with
  | error e =>
    simp only [hm, Res.state, Option.some.injEq] at h
    rw [← h]
  | ok bytes =>
    simp only [hm] at h
    cases hb : Tx.Bucket ⟨w, db⟩ bucket with
    | none => simp [hb, Bucket.Put, Res.state] at h
    | some name =>
      cases w with
      | false =>
        simp only [hb, bucketPut_readonly, Res.state, Option.some.injEq] at h
        rw [← h]
      | true =>
        simp only [hb, idtob, bucketPut_writable] at h
        split_ifs at h
        · simp only [Res.state, Option.some.injEq] at h
          rw [← h]
        · simp only [Res.state, Option.some.injEq] at h
          rw [← h]
          exact sequence_updateBucket true db B name _ (fun _ => rfl)

theorem sequence_fetch {Obj : Type} (c : Codec Obj) (t t1 : Tx) (bucket : String) (id : Nat)
    (receiver : Obj) (h : (Trx.Fetch c t bucket id receiver).state = some t1) : t1 = t := by
  unfold Trx.Fetch Bucket.Get at h
  cases hb : Tx.Bucket t bucket with
  | none => simp [hb, Res.state] at h
  | some name =>
    simp only [hb] at h
    cases hl : lookupBucket name t.buckets with
    | none => simp [hl, Res.state] at h
    | some bk =>
      simp only [hl] at h
      cases he : lookupEntry (idtob id) bk.entries with
      | none =>
        simp only [he, Res.state, Option.some.injEq] at h
        exact h.symm
      | some bytes =>
        simp only [he] at h
        cases hu : c.Unmarshal bytes receiver with
        | error e =>
          simp only [hu, Res.state, Option.some.injEq] at h
          exact h.symm
        | ok o =>
          simp only [hu, Res.state, Option.some.injEq] at h
          exact h.symm

theorem sequence_delete (t t1 : Tx) (bucket : String) (id : Nat) (B : String)
    (h : (Trx.Delete t bucket id).state = some t1) :
    Tx.sequence t1 B = Tx.sequence t B := by
  obtain ⟨w, db⟩ := t
  unfold Trx.Delete Bucket.Delete at h
  cases hb : Tx.Bucket ⟨w, db⟩ bucket with
  | none => simp [hb, Res.state] at h
  | some name =>
    cases w with
    | false =>
      simp only [hb, if_true, Res.state, Option.some.injEq] at h
      rw [← h]
    | true =>
      simp only [hb, Bool.true_eq_false, if_false, Res.state, Option.some.injEq] at h
      rw [← h]
      exact sequence_updateBucket true db B name _ (fun _ => rfl)

theorem sequence_init (t t1 : Tx) (bucket : String) (B : String) (s : Nat)
    (hs : Tx.sequence t B = some s)
    (h : (Trx.InitializeBucket t bucket).state = some t1) :
    Tx.sequence t1 B = some s := by
  obtain ⟨w, db⟩ := t
  unfold Trx.InitializeBucket Tx.CreateBucketIfNotExists at h
  cases w with
  | false =>
    simp only [if_true, Res.state, Option.some.injEq] at h
    rw [← h]
    exact hs
  | true =>
    simp only [Bool.true_eq_false, if_false] at h
    split_ifs at h
    · simp only [Res.state, Option.some.injEq] at h
      rw [← h]
      exact hs
    · cases hl : lookupBucket bucket db with
      | some bk =>
        simp only [hl, Res.state, Option.some.injEq] at h
        rw [← h]
        exact hs
      | none =>
        simp only [hl, Res.state, Option.some.injEq] at h
        rw [← h]
        simp only [Tx.sequence] at hs ⊢
        rw [lookupBucket_append]
        cases hB : lookupBucket B db with
        | none => simp [hB] at hs
        | some bk =>
          simp only [hB] at hs
          simpa using hs

theorem sequence_create {Obj : Type} (c : Codec Obj) (t t1 : Tx) (bucket : String)
    (idReceiver : Nat → Obj) (B : String) (s : Nat)
    (hs : Tx.sequence t B = some s)
    (h : (Trx.Create c t bucket idReceiver).state = some t1) :
    Tx.sequence t1 B
      = if bucket = B ∧ t.writable = true then some ((s + 1) % uint64Size) else some s := by
  obtain ⟨w, db⟩ := t
  unfold Trx.Create at h
  cases hl : lookupBucket bucket db with
  | none =>
    simp [(txBucket_eq_none ⟨w, db⟩ bucket).2 hl, Bucket.NextSequence, Res.state] at h
  | some bk =>
    have hB : Tx.Bucket ⟨w, db⟩ bucket = some bucket := txBucket_of_lookup _ _ bk hl
    cases w with
    | false =>
      simp only [hB, Bucket.NextSequence, if_true, Res.state, Option.some.injEq] at h
      rw [← h]
      simpa using hs
    | true =>
      simp only [hB, Bucket.NextSequence, hl, Bool.true_eq_false, if_false] at h
      have hmid : Tx.sequence ⟨true, updateBucket bucket
            (fun x => ⟨(bk.sequence + 1) % uint64Size, x.entries⟩) db⟩ B
          = if bucket = B ∧ True then some ((s + 1) % uint64Size) else some s := by
        simp only [Tx.sequence] at hs ⊢
        by_cases hn : bucket = B
        · subst hn
          rw [lookupBucket_updateBucket_same, hl]
          simp only [hl, Option.some.injEq] at hs
          simp [hs]
        · have hn1 : B ≠ bucket := fun x => hn x.symm
          rw [lookupBucket_updateBucket_other B bucket _ db hn1]
          simpa [hn] using hs
      cases hm : c.Marshal (idReceiver ((bk.sequence + 1) % uint64Size)) with
      | error e =>
        simp only [hm, Res.state, Option.some.injEq] at h
        rw [← h]
        simpa using hmid
      | ok bytes =>
        simp only [hm, itob, bucketPut_writable] at h
        split_ifs at h
        · simp only [Res.state, Option.some.injEq] at h
          rw [← h]
          simpa using hmid
        · simp only [Res.state, Option.some.injEq] at h
          rw [← h]
          refine (sequence_updateBucket true _ B bucket
            (fun x => ⟨x.sequence,
              putEntry (PutUint64 ((bk.sequence + 1) % uint64Size)) bytes x.entries⟩)
            (fun _ => rfl)).trans ?_
          simpa using hmid

theorem create_tagged {Obj : Type} (c : Codec Obj) (t : Tx) (bucket : String)
    (idReceiver : Nat → Obj) (bk : Bucket) (hl : lookupBucket bucket t.buckets = some bk) :
    Trx.Create c.tagged t bucket (fun id => (id, idReceiver id))
      = match Trx.Create c t bucket idReceiver with
        | .ok o t1 => .ok ((bk.sequence + 1) % uint64Size, o) t1
        | .err e t1 => .err e t1
        | .panic => .panic := by
  obtain ⟨w, db⟩ := t
  have hB : Tx.Bucket ⟨w, db⟩ bucket = some bucket := txBucket_of_lookup _ _ bk hl
  have hl0 : lookupBucket bucket db = some bk := hl
  cases w with
  | false => simp [Trx.Create, hB, Bucket.NextSequence]
  | true =>
    simp only [Trx.Create, hB, Bucket.NextSequence, hl0, Bool.true_eq_false, if_false,
      Codec.tagged]
    cases hm : c.Marshal (idReceiver ((bk.sequence + 1) % uint64Size)) with
    | error e => rfl
    | ok bytes =>
      simp only [itob, bucketPut_writable]
      split_ifs <;> rfl

theorem handsOut_create {Obj : Type} (c : Codec Obj) (t : Tx) (bucket B : String)
    (idReceiver : Nat → Obj) (s : Nat) (hs : Tx.sequence t B = some s) :
    Op.handsOut c B t (Op.Create bucket idReceiver) = [] ∨
    (bucket = B ∧ t.writable = true ∧
      Op.handsOut c B t (Op.Create bucket idReceiver) = [(s + 1) % uint64Size]) := by
  by_cases hn : bucket = B
  · subst hn
    simp only [Tx.sequence] at hs
    cases hl : lookupBucket bucket t.buckets with
    | none => simp [hl] at hs
    | some bk =>
      simp only [hl, Option.some.injEq] at hs
      simp only [Op.handsOut, if_true, create_tagged c t bucket idReceiver bk hl]
      cases hc : Trx.Create c t bucket idReceiver with
      | panic => simp
      | err e t1 => simp
      | ok o t1 =>
        obtain ⟨_, _, _, _, hw, _, _⟩ := create_ok c t t1 bucket idReceiver o hc
        right
        exact ⟨trivial, hw, by simp [hs]⟩
  · left
    simp [Op.handsOut, hn]

theorem handsOut_readonly {Obj : Type} (c : Codec Obj) (B : String) (t : Tx) (op : Op Obj)
    (hw : t.writable = false) : Op.handsOut c B t op = [] := by
  cases op with
  | Create bucket idReceiver =>
    simp only [Op.handsOut]
    split_ifs
    · cases hc : Trx.Create c.tagged t bucket (fun id => (id, idReceiver id)) with
      | panic => rfl
      | err e t1 => rfl
      | ok o t1 =>
        obtain ⟨_, _, _, _, hw1, _, _⟩ := create_ok c.tagged t t1 bucket _ o hc
        rw [hw] at hw1
        cases hw1
    · rfl
  | Put bucket id object => rfl
  | Fetch bucket id receiver => rfl
  | Delete bucket id => rfl
  | InitializeBucket bucket => rfl

theorem run_readonly {Obj : Type} (c : Codec Obj) (db : DB) (op : Op Obj) (t1 : Tx)
    (h : Op.run c ⟨false, db⟩ op = some t1) : t1 = ⟨false, db⟩ := by
  cases op with
  | Create bucket idReceiver =>
    simp only [Op.run, Trx.Create, Bucket.NextSequence] at h
    cases hb : Tx.Bucket ⟨false, db⟩ bucket with
    | none => simp [hb, Res.state] at h
    | some name =>
      simp only [hb, if_true, Res.state, Option.some.injEq] at h
      exact h.symm
  | Put bucket id object =>
    simp only [Op.run, Trx.Put] at h
    cases hm : c.Marshal object with
    | error e =>
      simp only [hm, Res.state, Option.some.injEq] at h
      exact h.symm
    | ok bytes =>
      cases hb : Tx.Bucket ⟨false, db⟩ bucket with
      | none => simp [hm, hb, Bucket.Put, Res.state] at h
      | some name =>
        simp only [hm, hb, bucketPut_readonly, Res.state, Option.some.injEq] at h
        exact h.symm
  | Fetch bucket id receiver =>
    exact sequence_fetch c ⟨false, db⟩ t1 bucket id receiver h
  | Delete bucket id =>
    simp only [Op.run, Trx.Delete, Bucket.Delete] at h
    cases hb : Tx.Bucket ⟨false, db⟩ bucket with
    | none => simp [hb, Res.state] at h
    | some name =>
      simp only [hb, if_true, Res.state, Option.some.injEq] at h
      exact h.symm
  | InitializeBucket bucket =>
    simp only [Op.run, Trx.InitializeBucket, Tx.CreateBucketIfNotExists, if_true, Res.state,
      Option.some.injEq] at h
    exact h.symm

theorem handedOut_readonly {Obj : Type} (c : Codec Obj) (B : String) (db : DB)
    (ops : List (Op Obj)) : handedOut c B ⟨false, db⟩ ops = [] := by
  induction ops with
  | nil => rfl
  | cons op rest ih =>
    simp only [handedOut, handsOut_readonly c B ⟨false, db⟩ op rfl, List.nil_append]
    cases hrun : Op.run c ⟨false, db⟩ op with
    | none => rfl
    | some t1 =>
      rw [run_readonly c db op t1 hrun]
      exact ih

theorem createCount_cons {Obj : Type} (B : String) (op : Op Obj) (rest : List (Op Obj)) :
    createCount B (op :: rest) = createCount B [op] + createCount B rest := by
  cases op <;> simp [createCount]

/-- One call: the counter of `B` goes from `s` to some `s1` between `s` and `s` plus the
number of `Create` calls on `B` (0 or 1), and what is handed out is nothing or `s1`. -/
theorem step_sequence {Obj : Type} (c : Codec Obj) (B : String) (t : Tx) (op : Op Obj)
    (s : Nat) (hs : Tx.sequence t B = some s) (hno : s + createCount B [op] < 2 ^ 64) :
    ∃ s1, s ≤ s1 ∧ s1 ≤ s + createCount B [op] ∧
      (Op.handsOut c B t op = [] ∨ (Op.handsOut c B t op = [s1] ∧ s < s1)) ∧
      ∀ t1, Op.run c t op = some t1 → Tx.sequence t1 B = some s1 := by
  cases op with
  | Put bucket id object =>
    refine ⟨s, le_refl s, by omega, Or.inl rfl, ?_⟩
    intro t1 h
    rw [sequence_put c t t1 bucket id object B h, hs]
  | Fetch bucket id receiver =>
    refine ⟨s, le_refl s, by omega, Or.inl rfl, ?_⟩
    intro t1 h
    rw [sequence_fetch c t t1 bucket id receiver h, hs]
  | Delete bucket id =>
    refine ⟨s, le_refl s, by omega, Or.inl rfl, ?_⟩
    intro t1 h
    rw [sequence_delete t t1 bucket id B h, hs]
  | InitializeBucket bucket =>
    refine ⟨s, le_refl s, by omega, Or.inl rfl, ?_⟩
    intro t1 h
    exact sequence_init t t1 bucket B s hs h
  | Create bucket idReceiver =>
    by_cases hcase : bucket = B ∧ t.writable = true
    · have hcount : createCount B [Op.Create bucket idReceiver] = 1 := by
        simp [createCount, hcase.1]
      have hmod : (s + 1) % uint64Size = s + 1 := by
        apply Nat.mod_eq_of_lt
        simp only [uint64Size]
        omega
      refine ⟨s + 1, by omega, by omega, ?_, ?_⟩
      · cases handsOut_create c t bucket B idReceiver s hs with
        | inl h => exact Or.inl h
        | inr h =>
          right
          rw [h.2.2, hmod]
          exact ⟨rfl, by omega⟩
      · intro t1 h
        rw [sequence_create c t t1 bucket idReceiver B s hs h, if_pos hcase, hmod]
    · refine ⟨s, le_refl s, by omega, ?_, ?_⟩
      · cases handsOut_create c t bucket B idReceiver s hs with
        | inl h => exact Or.inl h
        | inr h => exact absurd ⟨h.1, h.2.1⟩ hcase
      · intro t1 h
        rw [sequence_create c t t1 bucket idReceiver B s hs h, if_neg hcase]

theorem handedOut_increasing_aux {Obj : Type} (c : Codec Obj) (B : String)
    (ops : List (Op Obj)) :
    ∀ (t : Tx) (s : Nat), Tx.sequence t B = some s → s + createCount B ops < 2 ^ 64 →
      (handedOut c B t ops).Pairwise (fun a b => a < b) ∧
      (∀ id ∈ handedOut c B t ops, s < id) ∧
      (∀ t1, runOps c t ops = some t1 →
        ∃ s1, Tx.sequence t1 B = some s1 ∧ s ≤ s1 ∧ s1 ≤ s + createCount B ops ∧
          ∀ id ∈ handedOut c B t ops, id ≤ s1) := by
  induction ops with
  | nil =>
    intro t s hs _
    refine ⟨by simp [handedOut], by simp [handedOut], ?_⟩
    intro t1 h
    simp only [runOps, Option.some.injEq] at h
    subst h
    exact ⟨s, hs, le_refl s, by omega, by simp [handedOut]⟩
  | cons op rest ih =>
    intro t s hs hno
    rw [createCount_cons] at hno
    obtain ⟨s1, hle, hle1, hout, hseq⟩ := step_sequence c B t op s hs (by omega)
    have hout1 : ∀ id ∈ Op.handsOut c B t op, id = s1 ∧ s < id := by
      intro id hid
      cases hout with
      | inl h => simp [h] at hid
      | inr h =>
        rw [h.1] at hid
        simp only [List.mem_singleton] at hid
        subst hid
        exact ⟨rfl, h.2⟩
    have hpair : (Op.handsOut c B t op).Pairwise (fun a b => a < b) := by
      cases hout with
      | inl h => simp [h]
      | inr h => simp [h.1]
    simp only [handedOut, runOps, createCount_cons B op rest]
    cases hrun : Op.run c t op with
    | none =>
      simp only [List.append_nil]
      refine ⟨hpair, fun id hid => (hout1 id hid).2, ?_⟩
      intro t1 h
      simp at h
    | some t1 =>
      obtain ⟨hp, hgt, hfin⟩ := ih t1 s1 (hseq t1 hrun) (by omega)
      refine ⟨?_, ?_, ?_⟩
      · rw [List.pairwise_append]
        refine ⟨hpair, hp, ?_⟩
        intro a ha b hb
        have h1 := (hout1 a ha).1
        have h2 := hgt b hb
        omega
      · intro id hid
        cases List.mem_append.1 hid with
        | inl h => exact (hout1 id h).2
        | inr h => have := hgt id h; omega
      · intro t2 h2
        obtain ⟨s2, hs2, hle2, hle3, hmax⟩ := hfin t2 h2
        refine ⟨s2, hs2, by omega, by omega, ?_⟩
        intro id hid
        cases List.mem_append.1 hid with
        | inl h => have := (hout1 id h).1; omega
        | inr h => exact hmax id h

theorem update_script {Obj : Type} (c : Codec Obj) (db : DB) (s : Script Obj) :
    Manager.Update ⟨some db⟩ (s.callback c)
      = match runOps c ⟨true, db⟩ s.ops with
        | none => .panic
        | some t1 =>
          match s.result with
          | none => .ok () ⟨some t1.buckets⟩
          | some e => .err e ⟨some db⟩ := by
  simp only [Manager.Update, DB.Update, Script.callback]
  cases runOps c ⟨true, db⟩ s.ops with
  | none => rfl
  | some t1 => cases s.result <;> rfl

theorem view_script {Obj : Type} (c : Codec Obj) (db : DB) (s : Script Obj) :
    Manager.View ⟨some db⟩ (s.callback c)
      = match runOps c ⟨false, db⟩ s.ops with
        | none => .panic
        | some _ =>
          match s.result with
          | none => .ok () ⟨some db⟩
          | some e => .err e ⟨some db⟩ := by
  simp only [Manager.View, DB.View, Script.callback]
  cases runOps c ⟨false, db⟩ s.ops with
  | none => rfl
  | some t1 => cases s.result <;> rfl

theorem committedIDs_increasing_aux {Obj : Type} (c : Codec Obj) (B : String)
    (history : List (Transaction Obj)) :
    ∀ (db : DB) (s : Nat), Tx.sequence ⟨true, db⟩ B = some s →
      s + historyCreates B history < 2 ^ 64 →
      (committedIDs c B ⟨some db⟩ history).Pairwise (fun a b => a < b) ∧
      ∀ id ∈ committedIDs c B ⟨some db⟩ history, s < id := by
  induction history with
  | nil =>
    intro db s _ _
    simp [committedIDs]
  | cons tr rest ih =>
    intro db s hs hno
    cases tr with
    | View script =>
      simp only [historyCreates] at hno
      have hrest := ih db s hs (by omega)
      simp only [committedIDs, transactionIDs, handedOut_readonly, List.nil_append,
        view_script]
      cases runOps c ⟨false, db⟩ script.ops with
      | none => exact hrest
      | some t1 => cases script.result <;> exact hrest
    | Update script =>
      simp only [historyCreates] at hno
      simp only [committedIDs, update_script]
      cases hrun : runOps c ⟨true, db⟩ script.ops with
      | none => exact ih db s hs (by omega)
      | some t1 =>
        cases script.result with
        | some e => exact ih db s hs (by omega)
        | none =>
          obtain ⟨hp, hgt, hfin⟩ :=
            handedOut_increasing_aux c B script.ops ⟨true, db⟩ s hs (by omega)
          obtain ⟨s1, hs1, hle, hle1, hmax⟩ := hfin t1 hrun
          have hs1' : Tx.sequence ⟨true, t1.buckets⟩ B = some s1 := hs1
          obtain ⟨hp2, hgt2⟩ := ih t1.buckets s1 hs1' (by omega)
          simp only [transactionIDs]
          refine ⟨?_, ?_⟩
          · rw [List.pairwise_append]
            refine ⟨hp, hp2, ?_⟩
            intro a ha b hb
            have h1 := hmax a ha
            have h2 := hgt2 b hb
            omega
          · intro id hid
            cases List.mem_append.1 hid with
            | inl h => exact hgt id h
            | inr h => have := hgt2 id h; omega

/-- C2 (as amended): let `B` be an initialized bucket whose sequence counter is `s`.  Along
every history of `Manager.Update` and `Manager.View` transactions, each making any calls
of `Create`, `Put`, `Fetch`, `Delete` and `InitializeBucket` and then committing or
failing, the identifiers handed out by the `Create` calls on `B` in the transactions that
are not rolled back are strictly increasing, and each is greater than `s` (so greater than
every identifier assigned before, deleted or not); and inside any one transaction,
committed or not, the identifiers handed out are strictly increasing too.  Both hold as
long as the 64-bit counter does not wrap: the counter plus the number of `Create` calls on
`B` stays below `2 ^ 64`. -/
theorem create_ids_strictly_increase {Obj : Type} (c : Codec Obj) (B : String) (db : DB)
    (history : List (Transaction Obj)) (s : Nat)
    (hB : Tx.sequence ⟨true, db⟩ B = some s)
    (hno : s + historyCreates B history < 2 ^ 64) :
    ((committedIDs c B ⟨some db⟩ history).Pairwise (fun a b => a < b) ∧
      ∀ id ∈ committedIDs c B ⟨some db⟩ history, s < id) ∧
    (∀ (t : Tx) (ops : List (Op Obj)) (s0 : Nat), Tx.sequence t B = some s0 →
      s0 + createCount B ops < 2 ^ 64 →
      (handedOut c B t ops).Pairwise (fun a b => a < b) ∧
      ∀ id ∈ handedOut c B t ops, s0 < id) := by
  refine ⟨committedIDs_increasing_aux c B history db s hB hno, ?_⟩
  intro t ops s0 hs0 hno0
  obtain ⟨hp, hgt, _⟩ := handedOut_increasing_aux c B ops t s0 hs0 hno0
  exact ⟨hp, hgt⟩

/-- Witness of the amended C2 on the store whose bucket `widgets` has counter 2: an
`Update` that fails after a `Create`, a `View`, an `Update` that panics on a missing
bucket, and two `Update`s that commit, the first of them deleting what it created.  The
committed `Create` calls are handed 3, 4 and 5. -/
theorem create_ids_strictly_increase_witness :
    Tx.sequence ⟨true, widgetsTx.buckets⟩ "widgets" = some 2 ∧
    committedIDs byteCodec "widgets" ⟨some widgetsTx.buckets⟩
      [.Update ⟨[.Create "widgets" (fun n => n)], some (.collaborator "updater gave up")⟩,
       .View ⟨[.Create "widgets" (fun n => n)], none⟩,
       .Update ⟨[.Create "widgets" (fun n => n), .Create "gadgets" (fun n => n)], none⟩,
       .Update ⟨[.Create "widgets" (fun n => n), .Delete "widgets" 3, .Put "widgets" 9 41,
                 .Create "widgets" (fun n => n)], none⟩,
       .Update ⟨[.InitializeBucket "gadgets", .Create "gadgets" (fun n => n),
                 .Create "widgets" (fun n => n)], none⟩]
      = [3, 4, 5] ∧
    (committedIDs byteCodec "widgets" ⟨some widgetsTx.buckets⟩
      [.Update ⟨[.Create "widgets" (fun n => n)], some (.collaborator "updater gave up")⟩,
       .View ⟨[.Create "widgets" (fun n => n)], none⟩,
       .Update ⟨[.Create "widgets" (fun n => n), .Create "gadgets" (fun n => n)], none⟩,
       .Update ⟨[.Create "widgets" (fun n => n), .Delete "widgets" 3, .Put "widgets" 9 41,
                 .Create "widgets" (fun n => n)], none⟩,
       .Update ⟨[.InitializeBucket "gadgets", .Create "gadgets" (fun n => n),
                 .Create "widgets" (fun n => n)], none⟩]).Pairwise (fun a b => a < b) :=
  ⟨by decide, by decide,
   (create_ids_strictly_increase byteCodec "widgets" widgetsTx.buckets
      [.Update ⟨[.Create "widgets" (fun n => n)], some (.collaborator "updater gave up")⟩,
       .View ⟨[.Create "widgets" (fun n => n)], none⟩,
       .Update ⟨[.Create "widgets" (fun n => n), .Create "gadgets" (fun n => n)], none⟩,
       .Update ⟨[.Create "widgets" (fun n => n), .Delete "widgets" 3, .Put "widgets" 9 41,
                 .Create "widgets" (fun n => n)], none⟩,
       .Update ⟨[.InitializeBucket "gadgets", .Create "gadgets" (fun n => n),
                 .Create "widgets" (fun n => n)], none⟩]
      2 (by decide) (by decide)).1.1⟩

/-- Counterexample to C2 as stated, in two ways.  On a bucket whose counter is
`2 ^ 64 - 2`, two `Create` calls in a row both succeed; the first is handed `2 ^ 64 - 1`
and the second is handed 0, which is smaller (the builder keeps the low byte of its
identifier, so the objects returned are 255 and 0).  And on a bucket whose counter is 2, a
`Create` inside an `Update` that then fails is handed 3, the failed `Update` leaves the
store as it was, and the `Create` of the next `Update` is handed 3 again. -/
theorem create_ids_repeat :
    (Tx.sequence lateTx "widgets" = some (2 ^ 64 - 2) ∧
     Trx.Create byteCodec lateTx "widgets" (fun n => n % 256)
       = .ok 255 ⟨true, [("widgets", ⟨2 ^ 64 - 1, [(itob (2 ^ 64 - 1), [255])]⟩)]⟩ ∧
     Trx.Create byteCodec ⟨true, [("widgets", ⟨2 ^ 64 - 1, [(itob (2 ^ 64 - 1), [255])]⟩)]⟩
         "widgets" (fun n => n % 256)
       = .ok 0 ⟨true, [("widgets", ⟨0, [(itob (2 ^ 64 - 1), [255]), (itob 0, [0])]⟩)]⟩ ∧
     handedOut byteCodec "widgets" lateTx
       [.Create "widgets" (fun n => n % 256), .Create "widgets" (fun n => n % 256)]
       = [2 ^ 64 - 1, 0] ∧
     ¬ (handedOut byteCodec "widgets" lateTx
       [.Create "widgets" (fun n => n % 256), .Create "widgets" (fun n => n % 256)]).Pairwise
         (fun a b => a < b)) ∧
    (Tx.sequence ⟨true, widgetsTx.buckets⟩ "widgets" = some 2 ∧
     Trx.Create byteCodec ⟨true, widgetsTx.buckets⟩ "widgets" (fun n => n)
       = .ok 3 ⟨true, [("widgets", ⟨3, [(idtob 2, [7]), (itob 3, [3])]⟩)]⟩ ∧
     Manager.Update ⟨some widgetsTx.buckets⟩
         (Script.callback byteCodec
           ⟨[.Create "widgets" (fun n => n)], some (.collaborator "updater gave up")⟩)
       = .err (.collaborator "updater gave up") ⟨some widgetsTx.buckets⟩ ∧
     allIDs byteCodec "widgets" ⟨some widgetsTx.buckets⟩
       [.Update ⟨[.Create "widgets" (fun n => n)], some (.collaborator "updater gave up")⟩,
        .Update ⟨[.Create "widgets" (fun n => n)], none⟩]
       = [3, 3] ∧
     ¬ (allIDs byteCodec "widgets" ⟨some widgetsTx.buckets⟩
       [.Update ⟨[.Create "widgets" (fun n => n)], some (.collaborator "updater gave up")⟩,
        .Update ⟨[.Create "widgets" (fun n => n)], none⟩]).Pairwise (fun a b => a < b)) := by
  decide

end Kvstore
